import Mathlib

/-!
Shallow embedding of the Rust learning repository, covering the parts the
specification's claims are about:

* `src/functional_lang/src/main.rs`: the memoizing wrapper `Cacher` (its
  `HashMap` is embedded as an association list with the same lookup/insert
  semantics) and the bounded counting iterator `Counter`.
* `src/minigrep/src/lib.rs` and `src/minigrep/src/main.rs`: `Config::new`,
  `run`, `search`, `search_case_insensitive`.

Rust strings are embedded as `List Char`; `u32` counters as `Nat` (all the
arithmetic in these claims stays far below `2^32`, so no wrap-around is
reachable and the embedding notes where that is used). Stateful methods
taking `&mut self` become functions returning the result together with the
updated state.
-/

set_option autoImplicit false

namespace LearningRust

/-- Embeds `struct Counter { count: u32 }` from
`src/functional_lang/src/main.rs`. The `count` field is a `Nat`: `next`
only increments while `count < 5`, so the `u32` never overflows and `Nat`
is an exact model. -/
structure Counter where
  count : Nat
deriving Repr, DecidableEq

/-- Embeds `Counter::new`, which builds `Counter { count: 0 }`. -/
def Counter.new : Counter :=
  ⟨0⟩

/-- Embeds `Counter::next` (`impl Iterator for Counter`): if `count < 5`,
increment `count` and yield `Some(count)`; otherwise yield `None`. The
`&mut self` method becomes a function returning the yielded item and the
updated state. -/
def Counter.next (c : Counter) : Option Nat × Counter :=
  if c.count < 5 then (some (c.count + 1), ⟨c.count + 1⟩) else (none, c)

/-- Calls `next` a given number of times, collecting every yielded
`Option` (including the `None`s) together with the final state. -/
def runNext : Counter → Nat → List (Option Nat) × Counter
  | c, 0 => ([], c)
  | c, n + 1 =>
    let r := c.next
    let s := runNext r.2 n
    (r.1 :: s.1, s.2)

/-- The item yielded by the `(n+1)`-st call to `next` on a fresh
`Counter` (calls are indexed from `0`). -/
def counterOut (n : Nat) : Option Nat :=
  ((runNext Counter.new n).2.next).1

/-- Drives the iterator like a `for`/adaptor chain does: collect the
values yielded by `next` until the first `None` (with fuel, since the
embedding is a plain function). -/
def Counter.collect : Counter → Nat → List Nat
  | _, 0 => []
  | c, n + 1 =>
    match c.next with
    | (some v, c2) => v :: c2.collect n
    | (none, _) => []

/-- Lookup in the association-list embedding of
`std::collections::HashMap`: the value paired with the first key equal to
`a`, mirroring `HashMap::get`. -/
def mapGet {U V : Type} [DecidableEq U] : List (U × V) → U → Option V
  | [], _ => none
  | p :: rest, a => if a = p.1 then some p.2 else mapGet rest a

/-- Insert in the association-list embedding of `HashMap`: replaces the
binding if the key is present, appends it otherwise, mirroring
`HashMap::insert`. -/
def mapInsert {U V : Type} [DecidableEq U] : List (U × V) → U → V → List (U × V)
  | [], a, v => [(a, v)]
  | p :: rest, a, v => if a = p.1 then (a, v) :: rest else p :: mapInsert rest a v

/-- Embeds `struct Cacher<T, U, V>` from `src/functional_lang/src/main.rs`:
the closure field `calculation` becomes a Lean function and `value_map`
(a `HashMap<U, V>`) becomes an association list. -/
structure Cacher (U V : Type) where
  calculation : U → V
  value_map : List (U × V)

/-- Embeds `Cacher::new`: wraps the function with an empty map. -/
def Cacher.new {U V : Type} (f : U → V) : Cacher U V :=
  ⟨f, []⟩

/-- Embeds `Cacher::value`: on a hit return the cached value unchanged; on
a miss run `calculation`, insert the result, and return it. The
`&mut self` method becomes a function returning the value and the updated
cacher. -/
def Cacher.value {U V : Type} [DecidableEq U] (c : Cacher U V) (arg : U) : V × Cacher U V :=
  match mapGet c.value_map arg with
  | some v => (v, c)
  | none =>
    let v := c.calculation arg
    (v, { c with value_map := mapInsert c.value_map arg v })

/-- Runs a list of `value` calls in order. Returns the results, the log of
keys on which `calculation` was actually invoked (a call invokes it
exactly when its key misses the map, matching the `None` branch of
`Cacher::value`), and the final cacher. -/
def Cacher.runCalls {U V : Type} [DecidableEq U] : Cacher U V → List U → List V × List U × Cacher U V
  | c, [] => ([], [], c)
  | c, a :: rest =>
    let r := c.value a
    let s := r.2.runCalls rest
    (r.1 :: s.1, (if (mapGet c.value_map a).isNone then [a] else []) ++ s.2.1, s.2.2)

/-- Variant of `Cacher` whose wrapped function may fault, embedding a
panicking closure: `calculation k = none` stands for `f` panicking at
`k`. -/
structure CacherP (U V : Type) where
  calculation : U → Option V
  value_map : List (U × V)

/-- Embeds `Cacher::value` with a faulting closure. In the source the
insert `self.value_map.insert(arg, v)` runs strictly after
`(self.calculation)(arg)` returns, so when the closure panics the insert
never executes: here the fault (`none`) propagates and the cacher is
returned untouched. -/
def CacherP.value {U V : Type} [DecidableEq U] (c : CacherP U V) (arg : U) : Option V × CacherP U V :=
  match mapGet c.value_map arg with
  | some v => (some v, c)
  | none =>
    match c.calculation arg with
    | some v => (some v, { c with value_map := mapInsert c.value_map arg v })
    | none => (none, c)

/-- Removes one trailing carriage return, as `str::lines` trims the `\r`
of a `\r\n` line ending. -/
def stripCR : List Char → List Char
  | [] => []
  | [c] => if c = '\r' then [] else [c]
  | c :: rest => c :: stripCR rest

/-- Worker for `linesOf`: accumulates the current line (reversed) while
scanning for newlines. -/
def linesAux : List Char → List Char → List (List Char)
  | [], acc => if acc.isEmpty then [] else [acc.reverse]
  | c :: t, acc => if c = '\n' then stripCR acc.reverse :: linesAux t [] else linesAux t (c :: acc)

/-- Embeds `str::lines`: split at `'\n'` (trimming a preceding `'\r'`),
with no trailing empty line when the text ends in a newline. -/
def linesOf (s : List Char) : List (List Char) :=
  linesAux s []

/-- Bool test that `p` is a prefix of `l`. -/
def isPrefixList : List Char → List Char → Bool
  | [], _ => true
  | _ :: _, [] => false
  | p :: ps, c :: cs => p == c && isPrefixList ps cs

/-- Embeds `str::contains` with a string pattern: `containsSub hay pat`
holds when `pat` occurs contiguously in `hay` (the empty pattern always
matches). -/
def containsSub : List Char → List Char → Bool
  | [], pat => pat.isEmpty
  | c :: t, pat => isPrefixList pat (c :: t) || containsSub t pat

/-- Embeds `str::to_lowercase` on the ASCII range used by the repository
(`Char.toLower` lowercases exactly the ASCII uppercase letters). -/
def lowerStr (s : List Char) : List Char :=
  s.map Char.toLower

/-- Embeds `search` from `src/minigrep/src/lib.rs`: keep the lines of
`contents` that contain `query`. -/
def search (query contents : List Char) : List (List Char) :=
  (linesOf contents).filter (fun line => containsSub line query)

/-- Embeds `search_case_insensitive` from `src/minigrep/src/lib.rs`:
lowercase the query once, then loop over the lines pushing every line
whose lowercasing contains it (the source's `Vec::push` loop becomes a
fold that appends on the right). -/
def search_case_insensitive (query contents : List Char) : List (List Char) :=
  (linesOf contents).foldl
    (fun res line => if containsSub (lowerStr line) (lowerStr query) then res ++ [line] else res) []

/-- The two error values `Config::new` can return. In the source they are
the `&'static str` messages naming the missing query argument and the
missing filename argument, respectively. -/
inductive ConfigError where
  | missingQuery
  | missingFilename
deriving Repr, DecidableEq

/-- Embeds `pub struct Config` from `src/minigrep/src/lib.rs`. -/
structure Config where
  query : List Char
  fname : List Char
  case_sensitive : Bool

/-- Embeds `Config::new`. The argument iterator becomes the list of
arguments (program name first); the first `args.next()` discards the
program name, the next two yield `query` and `fname`, and a missing one
yields the corresponding error. The ambient `CASE_INSENSITIVE`
environment variable becomes the `env` parameter (`none` when unset), and
`env::var(..).is_err()` becomes `env.isNone`. -/
def Config.new (args : List (List Char)) (env : Option (List Char)) : Except ConfigError Config :=
  match args.drop 1 with
  | [] => Except.error ConfigError.missingQuery
  | query :: rest =>
    match rest with
    | [] => Except.error ConfigError.missingFilename
    | fname :: _ => Except.ok { query := query, fname := fname, case_sensitive := env.isNone }

/-- Embeds `run` from `src/minigrep/src/lib.rs`. The filesystem becomes
the function `fs` (`fs::read_to_string` returning `Err` is `none`); the
`?` on the read becomes the error case, and the lines printed to standard
output by the `for` loop become the `ok` payload. -/
def run (config : Config) (fs : List Char → Option (List Char)) : Except Unit (List (List Char)) :=
  match fs config.fname with
  | none => Except.error ()
  | some contents =>
    Except.ok
      (if config.case_sensitive then search config.query contents
       else search_case_insensitive config.query contents)

/-- Observable outcome of one invocation of the minigrep binary:
process exit code, the diagnostic printed to standard error (if any), the
lines printed to standard output, and the files whose read was
attempted. -/
structure MainResult where
  exitCode : Nat
  errOut : Option String
  outLines : List (List Char)
  filesRead : List (List Char)

/-- Embeds `main` from `src/minigrep/src/main.rs`: parse the arguments
with `Config::new`; on error print a diagnostic to standard error and
exit with code 1 before touching any file; otherwise call `run`, which
reads the file, and report its failure the same way. Note the source as
written passes `&args` (a `&Vec<String>`) where `Config::new` requires an
`Iterator<Item = String>`, which does not type-check; this embedding
feeds the argument list to `Config::new` the way the library's own tests
do. -/
def mainRun (args : List (List Char)) (env : Option (List Char))
    (fs : List Char → Option (List Char)) : MainResult :=
  match Config.new args env with
  | Except.error _ =>
    { exitCode := 1, errOut := some "Argument parsing problem", outLines := [], filesRead := [] }
  | Except.ok config =>
    match run config fs with
    | Except.error _ =>
      { exitCode := 1, errOut := some "Application error", outLines := [],
        filesRead := [config.fname] }
    | Except.ok lines =>
      { exitCode := 0, errOut := none, outLines := lines, filesRead := [config.fname] }

/-! Helper lemmas about `Counter`. -/

theorem runNext_state (k n : Nat) (h : k ≤ 5) :
    (runNext ⟨k⟩ n).2.count = min (k + n) 5 := by
  induction n generalizing k with
  | zero =>
    simp [runNext]
    omega
  | succ n ih =>
    by_cases hk : k < 5
    · have h5 : k + 1 ≤ 5 := hk
      have := ih (k + 1) h5
      simp [runNext, Counter.next, hk, this]
      omega
    · have hk5 : k = 5 := by omega
      subst hk5
      have := ih 5 (Nat.le_refl 5)
      simp [runNext, Counter.next, this]

theorem runNext_new_count (n : Nat) : (runNext Counter.new n).2.count = min n 5 := by
  have := runNext_state 0 n (by omega)
  simpa [Counter.new] using this

theorem next_fst (c : Counter) :
    (c.next).1 = if c.count < 5 then some (c.count + 1) else none := by
  by_cases h : c.count < 5 <;> simp [Counter.next, h]

theorem counterOut_eq (n : Nat) :
    counterOut n = if n < 5 then some (n + 1) else none := by
  unfold counterOut
  rw [next_fst, runNext_new_count]
  rcases Nat.lt_or_ge n 5 with h | h
  · rw [Nat.min_eq_left (Nat.le_of_lt h)]
  · rw [Nat.min_eq_right h]
    simp [Nat.not_lt.mpr h]

theorem next_none_fix (c : Counter) (h : (c.next).1 = none) : (c.next).2 = c := by
  by_cases hc : c.count < 5
  · simp [Counter.next, hc] at h
  · simp [Counter.next, hc]

/-- Claim C2: calling `next` N+1 = 6 times on a fresh `Counter` yields the
five non-exhausted values `some 1, ..., some 5` in order followed by the
exhaustion signal `none`, and every call after exhaustion (the call at any
index `n ≥ 5`) also yields `none`. -/
theorem counter_bounded_production :
    (runNext Counter.new 6).1 = [some 1, some 2, some 3, some 4, some 5, none]
    ∧ ∀ n, 5 ≤ n → counterOut n = none := by
  constructor
  · decide
  · intro n h
    rw [counterOut_eq]
    simp [Nat.not_lt.mpr h]

/-- Witness for C2 at the concrete call index 9. -/
theorem counter_bounded_production_witness : 5 ≤ 9 ∧ counterOut 9 = none :=
  ⟨by decide, counter_bounded_production.2 9 (by decide)⟩

/-- Claim C4: collecting a fresh `Counter`, zipping it with a second fresh
`Counter` advanced by one position, mapping each pair `(a, b)` to
`2*b - a`, keeping the even results, and summing yields exactly 10 (all
intermediate values are nonnegative, so `Nat` subtraction agrees with the
`u32` arithmetic of the source). -/
theorem counter_zip_map_filter_sum :
    ((((Counter.new.collect 6).zip ((Counter.new.collect 6).drop 1)).map
        (fun p => 2 * p.2 - p.1)).filter (fun x => x % 2 == 0)).sum = 10 := by
  decide

/-- Claim C8: every value the counting sequence produces lies in `1..=5`,
successive produced values increase by exactly one, and production is
exhausted (yields `none`) exactly from the 6th call on, i.e. after exactly
5 productions. -/
theorem counter_values_invariant :
    (∀ n v, counterOut n = some v → 1 ≤ v ∧ v ≤ 5)
    ∧ (∀ n a b, counterOut n = some a → counterOut (n + 1) = some b → b = a + 1)
    ∧ (∀ n, counterOut n = none ↔ 5 ≤ n) := by
  refine ⟨?_, ?_, ?_⟩
  · intro n v hv
    rw [counterOut_eq] at hv
    by_cases h : n < 5
    · simp [h] at hv
      omega
    · simp [h] at hv
  · intro n a b ha hb
    rw [counterOut_eq] at ha hb
    by_cases h : n < 5
    · by_cases h2 : n + 1 < 5
      · simp [h, h2] at ha hb
        omega
      · simp [h2] at hb
    · simp [h] at ha
  · intro n
    rw [counterOut_eq]
    by_cases h : n < 5
    · simp [h]
    · simp [h]
      omega


/-- Witness for C8 at concrete call indices 2 and 7. -/
theorem counter_values_invariant_witness :
    (1 ≤ 3 ∧ 3 ≤ 5) ∧ (4 : Nat) = 3 + 1 ∧ (counterOut 7 = none ↔ 5 ≤ 7) :=
  ⟨counter_values_invariant.1 2 3 (by decide),
   counter_values_invariant.2.1 2 3 4 (by decide) (by decide),
   counter_values_invariant.2.2 7⟩

/-- Claim C10: on every sequence of `next` calls starting from
`Counter::new` the cursor stays in `0..=5`, and from any state whose
`next` yields `none` every further sequence of `next` calls leaves the
state unchanged (no wrap-around of the cursor). -/
theorem counter_cursor_bounded :
    (∀ n, (runNext Counter.new n).2.count ≤ 5)
    ∧ ∀ (c : Counter) (m : Nat), (c.next).1 = none → (runNext c m).2 = c := by
  constructor
  · intro n
    rw [runNext_new_count]
    omega
  · intro c m h
    induction m with
    | zero => rfl
    | succ m ih =>
      have hfix : (c.next).2 = c := next_none_fix c h
      simp [runNext, hfix, ih]

/-- Witness for C10 from the concrete exhausted state with cursor 9. -/
theorem counter_cursor_bounded_witness : (runNext ⟨9⟩ 4).2 = (⟨9⟩ : Counter) :=
  counter_cursor_bounded.2 ⟨9⟩ 4 (by decide)

/-- Claim C1: for distinct keys `k1 ≠ k2`, the call sequence `value k1`,
`value k2`, `value k1` on a fresh `Cacher` returns `f k1` both times for
`k1` (the same, stable result), and the wrapped function is invoked
exactly once for `k1` and exactly once for `k2`. -/
theorem cacher_once_per_key {U V : Type} [DecidableEq U] (f : U → V) (k1 k2 : U)
    (h : k1 ≠ k2) :
    ((Cacher.new f).runCalls [k1, k2, k1]).1 = [f k1, f k2, f k1]
    ∧ ((Cacher.new f).runCalls [k1, k2, k1]).2.1 = [k1, k2]
    ∧ ((Cacher.new f).runCalls [k1, k2, k1]).2.1.count k1 = 1
    ∧ ((Cacher.new f).runCalls [k1, k2, k1]).2.1.count k2 = 1 := by
  have h21 : ¬(k2 = k1) := fun hk => h hk.symm
  refine ⟨?_, ?_, ?_, ?_⟩ <;>
    simp [Cacher.runCalls, Cacher.value, Cacher.new, mapGet, mapInsert, h21,
      List.count_cons, h]

/-- Witness for C1 with the squaring function on `Nat` and keys 1, 2. -/
theorem cacher_once_per_key_witness :
    ((Cacher.new (fun n : Nat => n * n)).runCalls [1, 2, 1]).1 = [1, 4, 1]
    ∧ ((Cacher.new (fun n : Nat => n * n)).runCalls [1, 2, 1]).2.1 = [1, 2]
    ∧ ((Cacher.new (fun n : Nat => n * n)).runCalls [1, 2, 1]).2.1.count 1 = 1
    ∧ ((Cacher.new (fun n : Nat => n * n)).runCalls [1, 2, 1]).2.1.count 2 = 1 :=
  cacher_once_per_key (fun n : Nat => n * n) 1 2 (by decide)

/-- Claim C6: when the wrapped function faults while `value` computes the
result for a key not yet cached, the fault propagates to the caller and
the cacher — in particular its mapping — is unchanged. -/
theorem cacher_fault_no_insert {U V : Type} [DecidableEq U] (c : CacherP U V) (k : U)
    (hmiss : mapGet c.value_map k = none) (hfail : c.calculation k = none) :
    (c.value k).1 = none ∧ (c.value k).2 = c := by
  unfold CacherP.value
  rw [hmiss, hfail]
  exact ⟨rfl, rfl⟩

/-- Witness for C6: a concrete cacher over `Nat` whose wrapped function
faults everywhere, queried at the uncached key 0. -/
theorem cacher_fault_no_insert_witness :
    ((⟨fun _ => none, []⟩ : CacherP Nat Nat).value 0).1 = none
    ∧ ((⟨fun _ => none, []⟩ : CacherP Nat Nat).value 0).2
        = (⟨fun _ => none, []⟩ : CacherP Nat Nat) :=
  cacher_fault_no_insert (⟨fun _ => none, []⟩ : CacherP Nat Nat) 0 rfl rfl

/-! Helper lemmas about the minigrep functions. -/

theorem isPrefixList_refl (l : List Char) : isPrefixList l l = true := by
  induction l with
  | nil => rfl
  | cons c t ih => simp [isPrefixList, ih]

theorem containsSub_refl (l : List Char) : containsSub l l = true := by
  cases l with
  | nil => rfl
  | cons c t => simp [containsSub, isPrefixList_refl]

theorem foldl_push_eq_filter {α : Type} (p : α → Bool) (l acc : List α) :
    l.foldl (fun res x => if p x then res ++ [x] else res) acc = acc ++ l.filter p := by
  induction l generalizing acc with
  | nil => simp
  | cons x t ih =>
    by_cases hx : p x
    · simp [hx, ih, List.filter_cons]
    · simp [hx, ih, List.filter_cons]

theorem search_case_insensitive_eq_filter (query contents : List Char) :
    search_case_insensitive query contents
      = (linesOf contents).filter (fun line => containsSub (lowerStr line) (lowerStr query)) := by
  unfold search_case_insensitive
  rw [foldl_push_eq_filter]
  simp

/-- Claim C3: when the lines of `contents` contain the query in exactly
one line (`pre` and `post` lines do not contain it, `line` does),
`search` returns exactly that line; and `search_case_insensitive` matches
every line of `contents` that equals the query up to letter case. -/
theorem search_unique_and_ci :
    (∀ (query contents line : List Char) (pre post : List (List Char)),
        linesOf contents = pre ++ line :: post →
        (∀ l ∈ pre, containsSub l query = false) →
        containsSub line query = true →
        (∀ l ∈ post, containsSub l query = false) →
        search query contents = [line])
    ∧ (∀ (query contents line : List Char),
        line ∈ linesOf contents →
        lowerStr line = lowerStr query →
        line ∈ search_case_insensitive query contents) := by
  constructor
  · intro query contents line pre post hsplit hpre hline hpost
    unfold search
    rw [hsplit, List.filter_append, List.filter_cons]
    have hpre0 : pre.filter (fun l => containsSub l query) = [] := by
      rw [List.filter_eq_nil_iff]
      intro a ha
      simp [hpre a ha]
    have hpost0 : post.filter (fun l => containsSub l query) = [] := by
      rw [List.filter_eq_nil_iff]
      intro a ha
      simp [hpost a ha]
    simp [hpre0, hpost0, hline]
  · intro query contents line hmem hlow
    rw [search_case_insensitive_eq_filter, List.mem_filter]
    refine ⟨hmem, ?_⟩
    rw [hlow]
    exact containsSub_refl _

/-- Witness for C3 on the contents "ab\ncd\nef" with query "cd", and on
the single line "a" with query "A". -/
theorem search_unique_and_ci_witness :
    search ['c', 'd'] ['a', 'b', '\n', 'c', 'd', '\n', 'e', 'f'] = [['c', 'd']]
    ∧ ['a'] ∈ search_case_insensitive ['A'] ['a'] :=
  ⟨search_unique_and_ci.1 ['c', 'd'] ['a', 'b', '\n', 'c', 'd', '\n', 'e', 'f']
      ['c', 'd'] [['a', 'b']] [['e', 'f']] (by decide) (by decide) (by decide) (by decide),
   search_unique_and_ci.2 ['A'] ['a'] ['a'] (by decide) (by decide)⟩

/-- Claim C9: both search functions return a sublist (an
order-preserving, duplication-free selection) of the lines of the
contents: matching lines come back in their original relative order,
unmodified. -/
theorem search_results_sublist (query contents : List Char) :
    List.Sublist (search query contents) (linesOf contents)
    ∧ List.Sublist (search_case_insensitive query contents) (linesOf contents) := by
  constructor
  · exact List.filter_sublist _
  · rw [search_case_insensitive_eq_filter]
    exact List.filter_sublist _

/-- Claim C7: with at least two positional arguments, `Config::new`
succeeds and sets `case_sensitive` to true exactly when the
`CASE_INSENSITIVE` environment variable is unset; `run` then performs the
case-sensitive search when `case_sensitive` is true and the
case-insensitive one otherwise, and the matching lines are what it prints
to standard output. -/
theorem config_env_toggle :
    (∀ (a0 q f : List Char) (rest : List (List Char)) (env : Option (List Char)),
        Config.new (a0 :: q :: f :: rest) env
          = Except.ok { query := q, fname := f, case_sensitive := env.isNone })
    ∧ (∀ (config : Config) (fs : List Char → Option (List Char)) (contents : List Char),
        fs config.fname = some contents →
        run config fs
          = Except.ok
              (if config.case_sensitive then search config.query contents
               else search_case_insensitive config.query contents)) := by
  constructor
  · intro a0 q f rest env
    rfl
  · intro config fs contents hfs
    unfold run
    rw [hfs]

/-- Witness for C7 at concrete arguments, environment and file system. -/
theorem config_env_toggle_witness :
    Config.new [['m'], ['a'], ['f']] (some ['1'])
        = Except.ok { query := ['a'], fname := ['f'], case_sensitive := false }
    ∧ run { query := ['a'], fname := ['f'], case_sensitive := true } (fun _ => some ['x'])
        = Except.ok
            (if true then search ['a'] ['x'] else search_case_insensitive ['a'] ['x']) :=
  ⟨config_env_toggle.1 ['m'] ['a'] ['f'] [] (some ['1']),
   config_env_toggle.2 { query := ['a'], fname := ['f'], case_sensitive := true }
     (fun _ => some ['x']) ['x'] rfl⟩

/-- Claim C5 (on the modelled intent of `main`, since the source `main`
passes `&args` where an iterator is required and does not type-check):
with fewer than two positional arguments `Config::new` returns the error
naming the missing query or filename, and the process prints a diagnostic
to standard error and exits with code 1 without attempting any file
access. -/
theorem minigrep_missing_args :
    Config.new [] none = Except.error ConfigError.missingQuery
    ∧ Config.new [['m']] none = Except.error ConfigError.missingQuery
    ∧ Config.new [['m'], ['q']] none = Except.error ConfigError.missingFilename
    ∧ (mainRun [['m']] none (fun _ => some [])).exitCode = 1
    ∧ (mainRun [['m']] none (fun _ => some [])).errOut.isSome = true
    ∧ (mainRun [['m']] none (fun _ => some [])).filesRead = []
    ∧ (mainRun [['m'], ['q']] none (fun _ => some [])).exitCode = 1
    ∧ (mainRun [['m'], ['q']] none (fun _ => some [])).filesRead = [] :=
  ⟨rfl, rfl, rfl, rfl, rfl, rfl, rfl, rfl⟩

end LearningRust
